import Mathlib

/-!
Formal model of the metrics-derivation engine in `generate_image_graphs.py`:
the SLA-violation estimator (`estimate_sla_violation_pct`), the aggregate
reducer (`get_aggregated`) and the cross-run aggregator (`collect_metrics`).

Numbers are modelled over `ℚ` (the Python code computes with floats on CSV
data; all the algorithms here are exact piecewise-linear arithmetic).
Missing / NaN CSV cells are modelled as `Option` fields; a Python exception
(pandas `iloc` on an empty frame) is modelled as `Option.none` / `Except.error`.
-/

namespace ImageGraphs

/-- One row of a Locust stats CSV, as consumed by the engine.  `none` in an
optional field models a column that is absent or holds NaN. -/
structure StatsRow where
  name : String
  requestCount : Option Int
  failureCount : Option Int
  avgRT : Option ℚ
  medianRT : Option ℚ
  maxRT : Option ℚ
  reqPerSec : Option ℚ
  p50 : Option ℚ
  p66 : Option ℚ
  p75 : Option ℚ
  p80 : Option ℚ
  p90 : Option ℚ
  p95 : Option ℚ
  p98 : Option ℚ
  p99 : Option ℚ
  p100 : Option ℚ
  p95alt : Option ℚ
  p99alt : Option ℚ
  deriving DecidableEq, Repr

/-- A row with every field absent; concrete test rows override fields. -/
def blankRow : StatsRow :=
  { name := ""
    requestCount := none, failureCount := none
    avgRT := none, medianRT := none, maxRT := none, reqPerSec := none
    p50 := none, p66 := none, p75 := none, p80 := none, p90 := none
    p95 := none, p98 := none, p99 := none, p100 := none
    p95alt := none, p99alt := none }

/-- The SLA threshold constant `SLA_THRESHOLD_MS = 3000`. -/
def SLA_THRESHOLD_MS : ℚ := 3000

/-- The percentile breakpoints of the Locust stats CSV, paired with the row
field holding the column's value (`pct_cols` in the source). -/
def pct_cols (r : StatsRow) : List (ℚ × Option ℚ) :=
  [(50, r.p50), (66, r.p66), (75, r.p75), (80, r.p80),
   (90, r.p90), (95, r.p95), (98, r.p98), (99, r.p99),
   (100, r.p100)]

/-- The `points` list built by `estimate_sla_violation_pct`: for each
percentile column whose value is present (not NaN), the pair
`(percentile, response_time)`. -/
def buildPoints (r : StatsRow) : List (ℚ × ℚ) :=
  (pct_cols r).filterMap (fun pc => pc.2.map (fun v => (pc.1, v)))

/-- The bracketing scan of `estimate_sla_violation_pct` (source lines
108-118): walk consecutive point pairs `(p_lo, rt_lo)`, `(p_hi, rt_hi)` and,
at the first pair with `rt_lo < threshold ≤ rt_hi`, return the interpolated
breach percentile (`p_lo` alone when `rt_hi == rt_lo`); `none` when no pair
brackets the threshold. -/
def findBracket (threshold : ℚ) : List (ℚ × ℚ) → Option ℚ
  | [] => none
  | [_] => none
  | (p_lo, rt_lo) :: (p_hi, rt_hi) :: rest =>
    if rt_lo < threshold ∧ threshold ≤ rt_hi then
      some (if rt_hi = rt_lo then p_lo
            else p_lo + (threshold - rt_lo) / (rt_hi - rt_lo) * (p_hi - p_lo))
    else findBracket threshold ((p_hi, rt_hi) :: rest)

/-- Core of `estimate_sla_violation_pct` (source lines 95-123), acting on the
already-built `points` list:
empty list → `0`; all latencies strictly below the threshold → `0`;
first point's latency at or above the threshold → `100`; otherwise the
bracketing scan, with the source's trailing fallback (`100` when the first
latency is at or above the threshold, else `0`) when no pair brackets. -/
def estimatePoints (points : List (ℚ × ℚ)) (threshold : ℚ) : ℚ :=
  match points with
  | [] => 0
  | (_, rt0) :: _ =>
    if ∀ pr ∈ points, pr.2 < threshold then 0
    else if threshold ≤ rt0 then 100
    else
      match findBracket threshold points with
      | some breach => 100 - breach
      | none => if threshold ≤ rt0 then 100 else 0

/-- The function `estimate_sla_violation_pct(row, threshold_ms)`: build the points from the
row's percentile columns, then run the estimator core. -/
def estimate_sla_violation_pct (r : StatsRow) (threshold : ℚ := SLA_THRESHOLD_MS) : ℚ :=
  estimatePoints (buildPoints r) threshold

/-- The reducer `get_aggregated(df)` (source lines 71-73): the first row named
`"Aggregated"`, else the last row.  `df.iloc[-1]` on an empty frame raises
in pandas; that failure is modelled as `none`. -/
def get_aggregated (df : List StatsRow) : Option StatsRow :=
  let agg := df.filter (fun r => r.name == "Aggregated")
  if agg.isEmpty then df.getLast? else agg.head?

/-- The normalized output row appended by `collect_metrics` for one
concurrency level (source lines 136-148). -/
structure RunMetrics where
  users : Int
  avg : ℚ
  median : ℚ
  p95 : ℚ
  p99 : ℚ
  maxRt : ℚ
  reqPerSec : ℚ
  failures : Int
  total : Int
  errorPct : ℚ
  slaViol : ℚ
  deriving DecidableEq, Repr

/-- The body of `collect_metrics`' loop (source lines 133-148): defaults for
absent cells follow the source's `r.get(col, default)` calls, `total` is the
raw request count clamped to at least 1, and the error percentage divides the
failure count by that clamped total. -/
def mkRunMetrics (n : Int) (r : StatsRow) : RunMetrics :=
  let total : Int := max (r.requestCount.getD 1) 1
  let failures : Int := r.failureCount.getD 0
  { users := n
    avg := r.avgRT.getD 0
    median := r.medianRT.getD 0
    p95 := (r.p95.getD (r.p95alt.getD 0))
    p99 := (r.p99.getD (r.p99alt.getD 0))
    maxRt := r.maxRT.getD 0
    reqPerSec := r.reqPerSec.getD 0
    failures := failures
    total := total
    errorPct := (failures : ℚ) / (total : ℚ) * 100
    slaViol := estimate_sla_violation_pct r SLA_THRESHOLD_MS }

/-- The aggregator `collect_metrics()` (source lines 126-149), abstracted over the list of
requested concurrency levels (`USER_COUNTS`) and the loader
(`load_stats`, which yields `none` for an absent file).  A level whose stats
are absent is skipped; a present but empty stats frame makes
`get_aggregated` fail, which aborts the whole build (modelled as
`Except.error`). -/
def collect_metrics (levels : List Int)
    (loadStats : Int → Option (List StatsRow)) : Except String (List RunMetrics) :=
  match levels with
  | [] => .ok []
  | n :: rest =>
    match loadStats n with
    | none => collect_metrics rest loadStats
    | some df =>
      match get_aggregated df with
      | none => .error "empty stats frame"
      | some r =>
        match collect_metrics rest loadStats with
        | .ok out => .ok (mkRunMetrics n r :: out)
        | .error e => .error e

/-- Specification predicate: pair `i` of the point list brackets the
threshold, i.e. `rt_lo < threshold ≤ rt_hi` for the consecutive points at
positions `i` and `i+1`. -/
def bracketsAt (points : List (ℚ × ℚ)) (threshold : ℚ) (i : ℕ) : Prop :=
  i + 1 < points.length ∧
    (points.getD i (0, 0)).2 < threshold ∧ threshold ≤ (points.getD (i + 1) (0, 0)).2

instance (points : List (ℚ × ℚ)) (threshold : ℚ) (i : ℕ) :
    Decidable (bracketsAt points threshold i) := by
  unfold bracketsAt; infer_instance

/-- Specification function: the breach percentile the source's scan computes
from pair `i` — `p_lo` when the latency interval is degenerate, otherwise the
linear interpolation `p_lo + (threshold − rt_lo)/(rt_hi − rt_lo)·(p_hi − p_lo)`. -/
def interpAt (points : List (ℚ × ℚ)) (threshold : ℚ) (i : ℕ) : ℚ :=
  let lo := points.getD i (0, 0)
  let hi := points.getD (i + 1) (0, 0)
  if hi.2 = lo.2 then lo.1
  else lo.1 + (threshold - lo.2) / (hi.2 - lo.2) * (hi.1 - lo.1)

/-- The point sequence of the spec's example scenario 1:
`[(50,800),(95,2500),(99,4200),(100,5000)]`. -/
def P1 : List (ℚ × ℚ) := [(50, 800), (95, 2500), (99, 4200), (100, 5000)]

/-- A sample non-sentinel row. -/
def rowHome : StatsRow :=
  { blankRow with name := "/home", requestCount := some 40, failureCount := some 1 }

/-- A sample sentinel row. -/
def rowAgg : StatsRow :=
  { blankRow with
    name := "Aggregated"
    requestCount := some 100
    failureCount := some 5
    p50 := some 800
    p95 := some 2500
    p99 := some 4200
    p100 := some 5000 }

/-- A sentinel row reporting zero requests. -/
def rowZeroReq : StatsRow :=
  { blankRow with name := "Aggregated", requestCount := some 0, failureCount := some 0 }

/-- A row with more failures than requests (possible only for corrupt input,
but allowed by the claim's `non-negative` hypotheses). -/
def rowBadCounts : StatsRow :=
  { blankRow with name := "Aggregated", requestCount := some 0, failureCount := some 5 }

/-- Loader with data only for level 10 (the spec's example scenario 5). -/
def demoLoad : Int → Option (List StatsRow) :=
  fun n => if n = 10 then some [rowHome, rowAgg] else none

/-! ### Helper lemmas about the bracketing scan -/

theorem bracketsAt_cons_succ (a : ℚ × ℚ) (l : List (ℚ × ℚ)) (T : ℚ) (i : ℕ) :
    bracketsAt (a :: l) T (i + 1) ↔ bracketsAt l T i := by
  simp [bracketsAt, List.getD_cons_succ, List.length_cons, Nat.succ_lt_succ_iff]

theorem interpAt_cons_succ (a : ℚ × ℚ) (l : List (ℚ × ℚ)) (T : ℚ) (i : ℕ) :
    interpAt (a :: l) T (i + 1) = interpAt l T i := by
  simp [interpAt, List.getD_cons_succ]

/-- When the scan's entry conditions hold (first latency strictly below the
threshold, some latency at or above it) a bracketing pair is found. -/
theorem findBracket_isSome {T : ℚ} :
    ∀ (tl : List (ℚ × ℚ)) (p0 rt0 : ℚ), rt0 < T →
      (∃ pr ∈ (p0, rt0) :: tl, T ≤ pr.2) →
      ∃ b, findBracket T ((p0, rt0) :: tl) = some b := by
  intro tl
  induction tl with
  | nil =>
    intro p0 rt0 hlt hex
    rcases hex with ⟨pr, hmem, hT⟩
    rcases List.mem_singleton.mp hmem with rfl
    exact absurd hT (not_le.2 hlt)
  | cons q rest ih =>
    intro p0 rt0 hlt hex
    obtain ⟨p1, rt1⟩ := q
    by_cases hbr : rt0 < T ∧ T ≤ rt1
    · refine ⟨if rt1 = rt0 then p0 else p0 + (T - rt0) / (rt1 - rt0) * (p1 - p0), ?_⟩
      simp [findBracket, hbr]
    · have hrt1 : rt1 < T := by
        rcases not_and_or.mp hbr with h | h
        · exact absurd hlt h
        · exact not_le.mp h
      have hex' : ∃ pr ∈ (p1, rt1) :: rest, T ≤ pr.2 := by
        rcases hex with ⟨pr, hmem, hT⟩
        rcases List.mem_cons.mp hmem with rfl | hmem'
        · exact absurd hT (not_le.2 hlt)
        · exact ⟨pr, hmem', hT⟩
      obtain ⟨b, hb⟩ := ih p1 rt1 hrt1 hex'
      refine ⟨b, ?_⟩
      simpa [findBracket, hbr] using hb

/-- A successful scan means some consecutive pair brackets the threshold. -/
theorem findBracket_bracketsAt {T : ℚ} :
    ∀ (l : List (ℚ × ℚ)) (b : ℚ), findBracket T l = some b → ∃ i, bracketsAt l T i := by
  intro l
  induction l with
  | nil => intro b h; simp [findBracket] at h
  | cons a tl ih =>
    intro b h
    cases tl with
    | nil => simp [findBracket] at h
    | cons q rest =>
      obtain ⟨pa, ra⟩ := a
      obtain ⟨pb, rb⟩ := q
      by_cases hbr : ra < T ∧ T ≤ rb
      · refine ⟨0, ?_, ?_, ?_⟩
        · simp [List.length_cons]
        · simpa [List.getD_cons_zero] using hbr.1
        · simpa [List.getD_cons_succ, List.getD_cons_zero] using hbr.2
      · rw [findBracket, if_neg hbr] at h
        obtain ⟨i, hi⟩ := ih b h
        exact ⟨i + 1, (bracketsAt_cons_succ _ _ _ _).mpr hi⟩

/-- The scan returns the interpolation of the FIRST bracketing pair. -/
theorem findBracket_first {T : ℚ} :
    ∀ (l : List (ℚ × ℚ)) (i : ℕ), bracketsAt l T i →
      (∀ j, j < i → ¬ bracketsAt l T j) →
      findBracket T l = some (interpAt l T i) := by
  intro l
  induction l with
  | nil => intro i hi _; rcases hi with ⟨hlen, -⟩; simp at hlen
  | cons a tl ih =>
    intro i hi hfirst
    cases tl with
    | nil =>
      rcases hi with ⟨hlen, -⟩
      simp [List.length_cons] at hlen
    | cons q rest =>
      obtain ⟨pa, ra⟩ := a
      obtain ⟨pb, rb⟩ := q
      cases i with
      | zero =>
        rcases hi with ⟨-, h1, h2⟩
        rw [List.getD_cons_zero] at h1
        rw [List.getD_cons_succ, List.getD_cons_zero] at h2
        rw [findBracket, if_pos ⟨h1, h2⟩]
        simp [interpAt, List.getD_cons_zero, List.getD_cons_succ]
      | succ j =>
        have hcond : ¬ (ra < T ∧ T ≤ rb) := by
          intro hc
          refine hfirst 0 (Nat.succ_pos j) ⟨?_, ?_, ?_⟩
          · simp [List.length_cons]
          · simpa [List.getD_cons_zero] using hc.1
          · simpa [List.getD_cons_succ, List.getD_cons_zero] using hc.2
        rw [findBracket, if_neg hcond]
        rw [ih j ((bracketsAt_cons_succ _ _ _ _).mp hi)
          (fun k hk => fun hbk =>
            hfirst (k + 1) (Nat.succ_lt_succ hk) ((bracketsAt_cons_succ _ _ _ _).mpr hbk))]
        rw [interpAt_cons_succ]

/-! ### Unfolding lemmas for the estimator core -/

theorem estimatePoints_of_all_lt (p0 rt0 : ℚ) (tl : List (ℚ × ℚ)) (T : ℚ)
    (hall : ∀ pr ∈ (p0, rt0) :: tl, pr.2 < T) :
    estimatePoints ((p0, rt0) :: tl) T = 0 := by
  simp only [estimatePoints, if_pos hall]

theorem estimatePoints_of_head_ge (p0 rt0 : ℚ) (tl : List (ℚ × ℚ)) (T : ℚ)
    (hnall : ¬ ∀ pr ∈ (p0, rt0) :: tl, pr.2 < T) (hle : T ≤ rt0) :
    estimatePoints ((p0, rt0) :: tl) T = 100 := by
  simp only [estimatePoints, if_neg hnall, if_pos hle]

theorem estimatePoints_of_bracket (p0 rt0 : ℚ) (tl : List (ℚ × ℚ)) (T b : ℚ)
    (hnall : ¬ ∀ pr ∈ (p0, rt0) :: tl, pr.2 < T) (hnle : ¬ T ≤ rt0)
    (hb : findBracket T ((p0, rt0) :: tl) = some b) :
    estimatePoints ((p0, rt0) :: tl) T = 100 - b := by
  simp only [estimatePoints, if_neg hnall, if_neg hnle, hb]

/-! ### Order lemmas about the scan (percentile-sorted point lists) -/

/-- The breach percentile returned by the scan is at least the first point's
percentile (sorted percentiles). -/
theorem findBracket_head_le {T : ℚ} :
    ∀ (tl : List (ℚ × ℚ)) (p0 rt0 b : ℚ),
      List.Chain' (fun a b => a.1 ≤ b.1) ((p0, rt0) :: tl) →
      findBracket T ((p0, rt0) :: tl) = some b → p0 ≤ b := by
  intro tl
  induction tl with
  | nil => intro p0 rt0 b _ h; simp [findBracket] at h
  | cons q rest ih =>
    intro p0 rt0 b hs h
    obtain ⟨p1, rt1⟩ := q
    have hple : p0 ≤ p1 := (List.chain'_cons.mp hs).1
    by_cases hbr : rt0 < T ∧ T ≤ rt1
    · rw [findBracket, if_pos hbr] at h
      have hb := Option.some.inj h
      by_cases hd : rt1 = rt0
      · rw [if_pos hd] at hb; linarith [hb.le, hb.ge]
      · rw [if_neg hd] at hb
        have hrtlt : rt0 < rt1 := lt_of_lt_of_le hbr.1 hbr.2
        have hfrac : 0 ≤ (T - rt0) / (rt1 - rt0) :=
          div_nonneg (by linarith [hbr.1]) (by linarith)
        nlinarith [mul_nonneg hfrac (by linarith : (0:ℚ) ≤ p1 - p0)]
    · rw [findBracket, if_neg hbr] at h
      have := ih p1 rt1 b (List.chain'_cons.mp hs).2 h
      linarith

/-- The breach percentile returned by the scan is at most 100 when every
percentile in the (sorted) list is at most 100. -/
theorem findBracket_le_100 {T : ℚ} :
    ∀ (tl : List (ℚ × ℚ)) (p0 rt0 b : ℚ),
      List.Chain' (fun a b => a.1 ≤ b.1) ((p0, rt0) :: tl) →
      (∀ pr ∈ (p0, rt0) :: tl, pr.1 ≤ 100) →
      findBracket T ((p0, rt0) :: tl) = some b → b ≤ 100 := by
  intro tl
  induction tl with
  | nil => intro p0 rt0 b _ _ h; simp [findBracket] at h
  | cons q rest ih =>
    intro p0 rt0 b hs hle h
    obtain ⟨p1, rt1⟩ := q
    have hple : p0 ≤ p1 := (List.chain'_cons.mp hs).1
    have hp1 : p1 ≤ 100 := hle (p1, rt1) (by simp)
    by_cases hbr : rt0 < T ∧ T ≤ rt1
    · rw [findBracket, if_pos hbr] at h
      have hb := Option.some.inj h
      by_cases hd : rt1 = rt0
      · rw [if_pos hd] at hb
        have hp0 : p0 ≤ 100 := hle (p0, rt0) (by simp)
        linarith [hb.le, hb.ge]
      · rw [if_neg hd] at hb
        have hrtlt : rt0 < rt1 := lt_of_lt_of_le hbr.1 hbr.2
        have hfrac : (T - rt0) / (rt1 - rt0) ≤ 1 :=
          (div_le_one (by linarith)).mpr (by linarith [hbr.2])
        have hfrac0 : 0 ≤ (T - rt0) / (rt1 - rt0) :=
          div_nonneg (by linarith [hbr.1]) (by linarith)
        nlinarith [mul_le_mul_of_nonneg_right hfrac (by linarith : (0:ℚ) ≤ p1 - p0)]
    · rw [findBracket, if_neg hbr] at h
      refine ih p1 rt1 b (List.chain'_cons.mp hs).2 ?_ h
      intro pr hpr
      exact hle pr (List.mem_cons_of_mem _ hpr)

/-- Monotonicity of the scan's breach percentile in the threshold, for a
sorted point list whose first latency is strictly below the lower threshold. -/
theorem findBracket_mono {T1 T2 : ℚ} (hT : T1 ≤ T2) :
    ∀ (tl : List (ℚ × ℚ)) (p0 rt0 b1 b2 : ℚ),
      List.Chain' (fun a b => a.1 ≤ b.1) ((p0, rt0) :: tl) →
      rt0 < T1 →
      findBracket T1 ((p0, rt0) :: tl) = some b1 →
      findBracket T2 ((p0, rt0) :: tl) = some b2 →
      b1 ≤ b2 := by
  intro tl
  induction tl with
  | nil => intro p0 rt0 b1 b2 _ _ h1 _; simp [findBracket] at h1
  | cons q rest ih =>
    intro p0 rt0 b1 b2 hs hlt h1 h2
    obtain ⟨p1, rt1⟩ := q
    have hple : p0 ≤ p1 := (List.chain'_cons.mp hs).1
    have hs' := (List.chain'_cons.mp hs).2
    by_cases hbr1 : rt0 < T1 ∧ T1 ≤ rt1
    · have hrtlt : rt0 < rt1 := lt_of_lt_of_le hbr1.1 hbr1.2
      have hd : ¬ (rt1 = rt0) := ne_of_gt hrtlt
      rw [findBracket, if_pos hbr1, if_neg hd] at h1
      have hb1 := Option.some.inj h1
      by_cases hbr2 : rt0 < T2 ∧ T2 ≤ rt1
      · rw [findBracket, if_pos hbr2, if_neg hd] at h2
        have hb2 := Option.some.inj h2
        have hfr : (T1 - rt0) / (rt1 - rt0) ≤ (T2 - rt0) / (rt1 - rt0) :=
          (div_le_div_iff_of_pos_right (by linarith)).mpr (by linarith)
        nlinarith [mul_le_mul_of_nonneg_right hfr (by linarith : (0:ℚ) ≤ p1 - p0)]
      · have hrt1T2 : rt1 < T2 := by
          rcases not_and_or.mp hbr2 with h | h
          · exact absurd (lt_of_lt_of_le hbr1.1 hT) h
          · exact not_le.mp h
        rw [findBracket, if_neg hbr2] at h2
        have hp1b2 : p1 ≤ b2 := findBracket_head_le rest p1 rt1 b2 hs' h2
        have hfrac : (T1 - rt0) / (rt1 - rt0) ≤ 1 :=
          (div_le_one (by linarith)).mpr (by linarith [hbr1.2])
        have hfrac0 : 0 ≤ (T1 - rt0) / (rt1 - rt0) :=
          div_nonneg (by linarith [hbr1.1]) (by linarith)
        nlinarith [mul_le_mul_of_nonneg_right hfrac (by linarith : (0:ℚ) ≤ p1 - p0)]
    · have hrt1T1 : rt1 < T1 := by
        rcases not_and_or.mp hbr1 with h | h
        · exact absurd hlt h
        · exact not_le.mp h
      have hbr2 : ¬ (rt0 < T2 ∧ T2 ≤ rt1) := by
        intro hc
        exact absurd hc.2 (not_le.2 (lt_of_lt_of_le hrt1T1 hT))
      rw [findBracket, if_neg hbr1] at h1
      rw [findBracket, if_neg hbr2] at h2
      exact ih p1 rt1 b1 b2 hs' hrt1T1 h1 h2

/-! ### Claim theorems about the SLA estimator -/

/-- C3: for every fixed point sequence in ascending percentile order (with
percentile values, i.e. values in [0, 100]), the SLA estimator is monotone in
the threshold: raising the threshold never raises the estimated violation
percentage. -/
theorem estimator_threshold_antitone
    (points : List (ℚ × ℚ)) (T1 T2 : ℚ)
    (hsorted : List.Chain' (fun a b => a.1 ≤ b.1) points)
    (hpct : ∀ pr ∈ points, 0 ≤ pr.1 ∧ pr.1 ≤ 100)
    (hT : T1 ≤ T2) :
    estimatePoints points T2 ≤ estimatePoints points T1 := by
  cases points with
  | nil => simp [estimatePoints]
  | cons hd tl =>
    obtain ⟨p0, rt0⟩ := hd
    by_cases hall1 : ∀ pr ∈ (p0, rt0) :: tl, pr.2 < T1
    · have hall2 : ∀ pr ∈ (p0, rt0) :: tl, pr.2 < T2 :=
        fun pr h => lt_of_lt_of_le (hall1 pr h) hT
      rw [estimatePoints_of_all_lt _ _ _ _ hall1, estimatePoints_of_all_lt _ _ _ _ hall2]
    · have hex1 : ∃ pr ∈ (p0, rt0) :: tl, T1 ≤ pr.2 := by
        push_neg at hall1
        rcases hall1 with ⟨pr, hm, hge⟩
        exact ⟨pr, hm, not_lt.mp (by exact not_lt.2 hge)⟩
      have hnall1 : ¬ ∀ pr ∈ (p0, rt0) :: tl, pr.2 < T1 := by
        rcases hex1 with ⟨pr, hm, hge⟩
        exact fun hc => absurd (hc pr hm) (not_lt.2 hge)
      by_cases hle2 : T2 ≤ rt0
      · have hle1 : T1 ≤ rt0 := le_trans hT hle2
        have hnall2 : ¬ ∀ pr ∈ (p0, rt0) :: tl, pr.2 < T2 := by
          intro hc
          exact absurd (hc (p0, rt0) (List.mem_cons_self _ _)) (not_lt.2 hle2)
        rw [estimatePoints_of_head_ge _ _ _ _ hnall1 hle1,
          estimatePoints_of_head_ge _ _ _ _ hnall2 hle2]
      · by_cases hle1 : T1 ≤ rt0
        · rw [estimatePoints_of_head_ge _ _ _ _ hnall1 hle1]
          by_cases hall2 : ∀ pr ∈ (p0, rt0) :: tl, pr.2 < T2
          · rw [estimatePoints_of_all_lt _ _ _ _ hall2]; norm_num
          · have hrt0T2 : rt0 < T2 := not_le.mp hle2
            have hex2 : ∃ pr ∈ (p0, rt0) :: tl, T2 ≤ pr.2 := by
              push_neg at hall2
              rcases hall2 with ⟨pr, hm, hge⟩
              exact ⟨pr, hm, hge⟩
            obtain ⟨b2, hb2⟩ := findBracket_isSome tl p0 rt0 hrt0T2 hex2
            rw [estimatePoints_of_bracket _ _ _ _ _ hall2 hle2 hb2]
            have h0p0 : 0 ≤ p0 := (hpct (p0, rt0) (List.mem_cons_self _ _)).1
            have := findBracket_head_le tl p0 rt0 b2 hsorted hb2
            linarith
        · have hrt0T1 : rt0 < T1 := not_le.mp hle1
          have hrt0T2 : rt0 < T2 := lt_of_lt_of_le hrt0T1 hT
          obtain ⟨b1, hb1⟩ := findBracket_isSome tl p0 rt0 hrt0T1 hex1
          rw [estimatePoints_of_bracket _ _ _ _ _ hnall1 hle1 hb1]
          by_cases hall2 : ∀ pr ∈ (p0, rt0) :: tl, pr.2 < T2
          · rw [estimatePoints_of_all_lt _ _ _ _ hall2]
            have hb1le := findBracket_le_100 tl p0 rt0 b1 hsorted
              (fun pr hm => (hpct pr hm).2) hb1
            linarith
          · have hex2 : ∃ pr ∈ (p0, rt0) :: tl, T2 ≤ pr.2 := by
              push_neg at hall2
              rcases hall2 with ⟨pr, hm, hge⟩
              exact ⟨pr, hm, hge⟩
            obtain ⟨b2, hb2⟩ := findBracket_isSome tl p0 rt0 hrt0T2 hex2
            rw [estimatePoints_of_bracket _ _ _ _ _ hall2 (not_le.2 hrt0T2) hb2]
            have := findBracket_mono hT tl p0 rt0 b1 b2 hsorted hrt0T1 hb1 hb2
            linarith

/-- C3 witness: the monotonicity theorem applied at the spec's example point
sequence and the concrete thresholds 3000 ≤ 4500. -/
theorem estimator_threshold_antitone_witness :
    estimatePoints P1 4500 ≤ estimatePoints P1 3000 :=
  estimator_threshold_antitone P1 3000 4500
    (by norm_num [P1, List.chain'_cons])
    (by intro pr hpr; simp [P1] at hpr; rcases hpr with h | h | h | h <;> rw [h] <;> norm_num)
    (by norm_num)

/-- C4: for a non-empty ascending-percentile point sequence whose first
latency is strictly below the threshold and in which some latency meets or
exceeds it, the estimator returns `100 − breach` where `breach` is the
interpolation (degenerate case: `p_lo`) taken at the FIRST consecutive pair
with `rt_lo < threshold ≤ rt_hi`. -/
theorem estimator_first_bracket_interpolation
    (points : List (ℚ × ℚ)) (T p0 rt0 : ℚ) (tl : List (ℚ × ℚ)) (i : ℕ)
    (hsorted : List.Chain' (fun a b => a.1 ≤ b.1) points)
    (hp : points = (p0, rt0) :: tl)
    (hlow : rt0 < T)
    (hsome : ∃ pr ∈ points, T ≤ pr.2)
    (hbr : bracketsAt points T i)
    (hfirst : ∀ j, j < i → ¬ bracketsAt points T j) :
    estimatePoints points T = 100 - interpAt points T i := by
  subst hp
  have hnall : ¬ ∀ pr ∈ (p0, rt0) :: tl, pr.2 < T := by
    rcases hsome with ⟨pr, hm, hge⟩
    exact fun hc => absurd (hc pr hm) (not_lt.2 hge)
  have hfb := findBracket_first ((p0, rt0) :: tl) i hbr hfirst
  exact estimatePoints_of_bracket _ _ _ _ _ hnall (not_le.2 hlow) hfb

/-- C4 witness: on the spec's example sequence with threshold 3000, the first
bracketing pair is at index 1 ((95,2500) → (99,4200)) and the estimator
returns `100 − interpAt P1 3000 1`. -/
theorem estimator_first_bracket_interpolation_witness :
    estimatePoints P1 3000 = 100 - interpAt P1 3000 1 :=
  estimator_first_bracket_interpolation P1 3000 50 800 [(95, 2500), (99, 4200), (100, 5000)] 1
    (by norm_num [P1, List.chain'_cons])
    rfl
    (by norm_num)
    ⟨(99, 4200), by norm_num [P1], by norm_num⟩
    (by
      refine ⟨by norm_num [P1], ?_, ?_⟩
      · norm_num [P1, List.getD_cons_succ, List.getD_cons_zero]
      · norm_num [P1, List.getD_cons_succ, List.getD_cons_zero])
    (by
      intro j hj hbj
      obtain rfl : j = 0 := by omega
      rcases hbj with ⟨-, h1, h2⟩
      norm_num [P1, List.getD_cons_succ, List.getD_cons_zero] at h2)

/-- C5: a non-empty (ascending-percentile) point sequence whose first, i.e.
lowest-percentile, point has latency at or above the threshold makes the
estimator return exactly 100. -/
theorem estimator_lowest_at_or_above_gives_100
    (points : List (ℚ × ℚ)) (T p0 rt0 : ℚ) (tl : List (ℚ × ℚ))
    (hsorted : List.Chain' (fun a b => a.1 ≤ b.1) points)
    (hp : points = (p0, rt0) :: tl)
    (hge : T ≤ rt0) :
    estimatePoints points T = 100 := by
  subst hp
  have hnall : ¬ ∀ pr ∈ (p0, rt0) :: tl, pr.2 < T := by
    intro hc
    exact absurd (hc (p0, rt0) (List.mem_cons_self _ _)) (not_lt.2 hge)
  exact estimatePoints_of_head_ge _ _ _ _ hnall hge

/-- C5 witness: the spec's example scenario 2, `P = [(50,3500),(99,9000)]`,
`T = 3000`, returns 100. -/
theorem estimator_lowest_at_or_above_gives_100_witness :
    estimatePoints [((50 : ℚ), (3500 : ℚ)), (99, 9000)] 3000 = 100 :=
  estimator_lowest_at_or_above_gives_100 [(50, 3500), (99, 9000)] 3000 50 3500 [(99, 9000)]
    (by norm_num [List.chain'_cons]) rfl (by norm_num)

/-- C10: whenever the bracketing scan is entered (first latency strictly
below the threshold, some latency at or above it), a bracketing pair exists:
the scan succeeds, the estimator returns through it (the trailing fallback is
unreachable), and the bracketing pair's latency interval is strictly
increasing, so the interpolation never divides by zero. -/
theorem estimator_scan_safe
    (points : List (ℚ × ℚ)) (T p0 rt0 : ℚ) (tl : List (ℚ × ℚ))
    (hp : points = (p0, rt0) :: tl)
    (hlow : rt0 < T)
    (hsome : ∃ pr ∈ points, T ≤ pr.2) :
    ∃ b, findBracket T points = some b ∧ estimatePoints points T = 100 - b ∧
      ∃ i, bracketsAt points T i ∧
        (points.getD i (0, 0)).2 < (points.getD (i + 1) (0, 0)).2 := by
  subst hp
  have hnall : ¬ ∀ pr ∈ (p0, rt0) :: tl, pr.2 < T := by
    rcases hsome with ⟨pr, hm, hge⟩
    exact fun hc => absurd (hc pr hm) (not_lt.2 hge)
  obtain ⟨b, hb⟩ := findBracket_isSome tl p0 rt0 hlow hsome
  obtain ⟨i, hi⟩ := findBracket_bracketsAt ((p0, rt0) :: tl) b hb
  exact ⟨b, hb, estimatePoints_of_bracket _ _ _ _ _ hnall (not_le.2 hlow) hb,
    i, hi, lt_of_lt_of_le hi.2.1 hi.2.2⟩

/-- C10 witness: the scan-safety theorem applied at the spec's example
sequence and threshold 3000. -/
theorem estimator_scan_safe_witness :
    ∃ b, findBracket 3000 P1 = some b ∧ estimatePoints P1 3000 = 100 - b ∧
      ∃ i, bracketsAt P1 3000 i ∧
        (P1.getD i (0, 0)).2 < (P1.getD (i + 1) (0, 0)).2 :=
  estimator_scan_safe P1 3000 50 800 [(95, 2500), (99, 4200), (100, 5000)]
    rfl (by norm_num) ⟨(99, 4200), by norm_num [P1], by norm_num⟩

/-- C1 (counterexample to the claimed value): on the example sequence the
estimator returns 65/17 ≈ 3.82, which is not approximately 2.14 — it is
off by more than 1.5 percentage points. -/
theorem estimator_example_not_2_14 :
    estimatePoints P1 3000 = 65 / 17 ∧
      3 / 2 < estimatePoints P1 3000 - 214 / 100 := by
  constructor <;> norm_num [P1, estimatePoints, findBracket]

/-- C1 (amended): the estimator brackets the threshold between (95,2500) and
(99,4200) — index 1 is the first bracketing pair — and returns
`100 − (95 + (3000−2500)/(4200−2500)·(99−95)) = 65/17 ≈ 3.82` (breach
percentile 1635/17 ≈ 96.18). -/
theorem estimator_example_value :
    bracketsAt P1 3000 1 ∧ (∀ j, j < 1 → ¬ bracketsAt P1 3000 j) ∧
      estimatePoints P1 3000 = 100 - (95 + (3000 - 2500) / (4200 - 2500) * (99 - 95)) ∧
      estimatePoints P1 3000 = 65 / 17 := by
  refine ⟨⟨by norm_num [P1], ?_, ?_⟩, ?_, ?_, ?_⟩
  · norm_num [P1, List.getD_cons_succ, List.getD_cons_zero]
  · norm_num [P1, List.getD_cons_succ, List.getD_cons_zero]
  · intro j hj hbj
    obtain rfl : j = 0 := by omega
    rcases hbj with ⟨-, h1, h2⟩
    norm_num [P1, List.getD_cons_succ, List.getD_cons_zero] at h2
  · norm_num [P1, estimatePoints, findBracket]
  · norm_num [P1, estimatePoints, findBracket]

/-! ### The aggregate reducer -/

/-- The head of a filtered list is the first element satisfying the filter. -/
theorem filter_head_eq_find {α : Type} (p : α → Bool) :
    ∀ l : List α, (l.filter p).head? = l.find? p
  | [] => rfl
  | a :: l => by
    by_cases h : p a
    · rw [List.filter_cons, if_pos h, List.find?_cons_of_pos _ h]
      rfl
    · rw [List.filter_cons, if_neg h, List.find?_cons_of_neg _ h]
      exact filter_head_eq_find p l

/-- C7: on a non-empty row sequence the reducer returns the first row whose
identifier is the sentinel `"Aggregated"`, and the last row when no row has
the sentinel identifier. -/
theorem get_aggregated_selection_rule (df : List StatsRow) (h : df ≠ []) :
    get_aggregated df =
      some ((df.find? (fun r => r.name == "Aggregated")).getD (df.getLast h)) := by
  cases hfil : df.filter (fun r => r.name == "Aggregated") with
  | nil =>
    have hf : df.find? (fun r => r.name == "Aggregated") = none := by
      rw [← filter_head_eq_find, hfil]; rfl
    rw [hf]
    simp only [get_aggregated, hfil, List.isEmpty_nil, if_pos]
    rw [List.getLast?_eq_getLast df h]
    rfl
  | cons r rest =>
    have hf : df.find? (fun r => r.name == "Aggregated") = some r := by
      rw [← filter_head_eq_find, hfil]; rfl
    rw [hf]
    simp only [get_aggregated, hfil]
    rfl

/-- C7 witness: on `[rowHome, rowAgg]` the reducer picks the sentinel row. -/
theorem get_aggregated_selection_rule_witness :
    get_aggregated [rowHome, rowAgg] = some rowAgg := by
  have h := get_aggregated_selection_rule [rowHome, rowAgg] (by simp)
  simpa [rowHome, rowAgg, blankRow] using h

/-- C8: the reducer fails on an empty row sequence (pandas `iloc[-1]` raises
there; the failure is modelled as `none`): no row is returned. -/
theorem get_aggregated_empty_fails : get_aggregated [] = none := rfl

/-! ### The cross-run aggregator -/

/-- C9: the `Total` field stored in an output row is the raw request count
clamped to at least 1; a zero-request aggregate row is reported with total 1;
and the clamped value is also the error-percentage denominator. -/
theorem mkRunMetrics_total_clamped (n : Int) (r : StatsRow) :
    (mkRunMetrics n r).total = max (r.requestCount.getD 1) 1 ∧
    (mkRunMetrics n r).errorPct =
      ((r.failureCount.getD 0 : Int) : ℚ) / (((mkRunMetrics n r).total : Int) : ℚ) * 100 ∧
    (r.requestCount = some 0 → (mkRunMetrics n r).total = 1) := by
  refine ⟨rfl, rfl, fun h => ?_⟩
  simp [mkRunMetrics, h]

/-- C9 witness: a zero-request row is stored with total 1. -/
theorem mkRunMetrics_total_clamped_witness :
    (mkRunMetrics 10 rowZeroReq).total = 1 :=
  (mkRunMetrics_total_clamped 10 rowZeroReq).2.2 rfl

/-- C2 counterexample: a row with non-negative counts — 5 failures, 0 total
requests — yields error percentage 500, which is outside [0, 100] and
non-zero although the total request count is 0.  The bound needs
`failures ≤ total`, not just non-negativity. -/
theorem errorPct_counterexample :
    (0 : Int) ≤ rowBadCounts.failureCount.getD 0 ∧
    (0 : Int) ≤ rowBadCounts.requestCount.getD 1 ∧
    rowBadCounts.requestCount.getD 1 = 0 ∧
    (mkRunMetrics 10 rowBadCounts).errorPct = 500 ∧
    ¬ ((mkRunMetrics 10 rowBadCounts).errorPct ≤ 100) ∧
    (mkRunMetrics 10 rowBadCounts).errorPct ≠ 0 := by
  refine ⟨?_, ?_, ?_, ?_, ?_, ?_⟩ <;>
    norm_num [rowBadCounts, blankRow, mkRunMetrics]

/-- C2 (amended): for every aggregate row whose failure count is non-negative
and at most the raw total request count, the error percentage
`failures / max(total, 1) × 100` lies in [0, 100]; and when the raw total is
0 the error percentage equals 0. -/
theorem errorPct_bounds (n : Int) (r : StatsRow)
    (h0 : 0 ≤ r.failureCount.getD 0)
    (h1 : r.failureCount.getD 0 ≤ r.requestCount.getD 1) :
    (0 ≤ (mkRunMetrics n r).errorPct ∧ (mkRunMetrics n r).errorPct ≤ 100) ∧
    (r.requestCount.getD 1 = 0 → (mkRunMetrics n r).errorPct = 0) := by
  have hep : (mkRunMetrics n r).errorPct =
      ((r.failureCount.getD 0 : Int) : ℚ) / ((max (r.requestCount.getD 1) 1 : Int) : ℚ) * 100 :=
    rfl
  have htot : (1 : Int) ≤ max (r.requestCount.getD 1) 1 := le_max_right _ _
  have htotQ : (0 : ℚ) < ((max (r.requestCount.getD 1) 1 : Int) : ℚ) := by
    exact_mod_cast lt_of_lt_of_le Int.zero_lt_one htot
  have hfQ : (0 : ℚ) ≤ ((r.failureCount.getD 0 : Int) : ℚ) := by exact_mod_cast h0
  refine ⟨⟨?_, ?_⟩, ?_⟩
  · rw [hep]
    have := div_nonneg hfQ (le_of_lt htotQ)
    linarith
  · rw [hep]
    have hle : ((r.failureCount.getD 0 : Int) : ℚ) ≤
        ((max (r.requestCount.getD 1) 1 : Int) : ℚ) := by
      exact_mod_cast le_trans h1 (le_max_left _ _)
    have hdiv : ((r.failureCount.getD 0 : Int) : ℚ) /
        ((max (r.requestCount.getD 1) 1 : Int) : ℚ) ≤ 1 :=
      (div_le_one htotQ).mpr hle
    linarith
  · intro hz
    have hf0 : r.failureCount.getD 0 = 0 := le_antisymm (hz ▸ h1) h0
    rw [hep, hf0]
    norm_num

/-- C2 witness: the bound theorem applied at the sample sentinel row
(5 failures out of 100 requests). -/
theorem errorPct_bounds_witness :
    (0 ≤ (mkRunMetrics 10 rowAgg).errorPct ∧ (mkRunMetrics 10 rowAgg).errorPct ≤ 100) ∧
    (rowAgg.requestCount.getD 1 = 0 → (mkRunMetrics 10 rowAgg).errorPct = 0) :=
  errorPct_bounds 10 rowAgg (by norm_num [rowAgg, blankRow]) (by norm_num [rowAgg, blankRow])

/-- The reducer succeeds on every non-empty row sequence. -/
theorem get_aggregated_isSome (df : List StatsRow) (h : df ≠ []) :
    ∃ r, get_aggregated df = some r := by
  cases hfil : df.filter (fun r => r.name == "Aggregated") with
  | nil =>
    refine ⟨df.getLast h, ?_⟩
    simp only [get_aggregated, hfil, List.isEmpty_nil, if_pos]
    exact List.getLast?_eq_getLast df h
  | cons r rest =>
    refine ⟨r, ?_⟩
    simp only [get_aggregated, hfil]
    rfl

/-- C6: for every ordered list of requested concurrency levels (each present
summary being non-empty, as the loader guarantees), the aggregator's output
has exactly one row per level whose summary is present, in the input level
order restricted to levels with data — absent levels produce no row and no
error, and nothing is re-sorted. -/
theorem collect_metrics_present_levels
    (levels : List Int) (loadStats : Int → Option (List StatsRow))
    (hne : ∀ n df, loadStats n = some df → df ≠ []) :
    ∃ out, collect_metrics levels loadStats = Except.ok out ∧
      out.map (fun m => m.users) = levels.filter (fun n => (loadStats n).isSome) := by
  induction levels with
  | nil => exact ⟨[], rfl, rfl⟩
  | cons n rest ih =>
    obtain ⟨out, hok, hmap⟩ := ih
    cases hls : loadStats n with
    | none =>
      refine ⟨out, ?_, ?_⟩
      · simp [collect_metrics, hls, hok]
      · rw [List.filter_cons]
        simp [hls, hmap]
    | some df =>
      obtain ⟨r, hr⟩ := get_aggregated_isSome df (hne n df hls)
      refine ⟨mkRunMetrics n r :: out, ?_, ?_⟩
      · simp [collect_metrics, hls, hr, hok]
      · rw [List.filter_cons]
        simp [hls, hmap, mkRunMetrics]

/-- C6 witness: levels `[10, 50]` requested, only level 10 present — the
output has exactly one row, for concurrency 10. -/
theorem collect_metrics_present_levels_witness :
    ∃ out, collect_metrics [10, 50] demoLoad = Except.ok out ∧
      out.map (fun m => m.users) = [10] := by
  obtain ⟨out, hok, hmap⟩ := collect_metrics_present_levels [10, 50] demoLoad
    (by
      intro n df h
      unfold demoLoad at h
      split at h
      · cases h; simp
      · cases h)
  refine ⟨out, hok, ?_⟩
  rw [hmap]
  norm_num [demoLoad, List.filter_cons]

end ImageGraphs
